import Mathlib

/-!
Verification of the mag2d IDML content-extraction core.

The geometry and content-assignment functions are shallowly embedded from
src/extract_from_idml.py (namespace Idml) and src/extract_box.py
(namespace Box).  Python floats are modelled as rationals, transform
strings and bounds strings at their parsed values (parse_transform_matrix
defaults to the identity 6-tuple, parse_geometric_bounds to the zero
4-tuple), and XML elements as a tree of tagged nodes carrying the
attributes the walk reads.
-/

/-- A 2-D affine transform, the 6-tuple (a, b, c, d, tx, ty) of
extract_from_idml.py / extract_box.py. -/
structure TransformMatrix where
  a : ℚ
  b : ℚ
  c : ℚ
  d : ℚ
  tx : ℚ
  ty : ℚ
deriving DecidableEq, Repr

/-- Default value of parse_transform_matrix: the identity transform. -/
def identity_matrix : TransformMatrix := ⟨1, 0, 0, 1, 0, 0⟩

/-- Untransformed local bounds (y1, x1, y2, x2), the parsed form of a
GeometricBounds attribute; parse_geometric_bounds defaults to all zero. -/
structure LocalBounds where
  y1 : ℚ
  x1 : ℚ
  y2 : ℚ
  x2 : ℚ
deriving DecidableEq, Repr

/-- The all-zero sentinel (0.0, 0.0, 0.0, 0.0) for unknown bounds. -/
def zero_bounds : LocalBounds := ⟨0, 0, 0, 0⟩

/-- Axis-aligned bounding box in document-global space, the dict
with keys x1, y1, x2, y2 built by get_axis_aligned_bounding_box. -/
structure GlobalAABB where
  x1 : ℚ
  y1 : ℚ
  x2 : ℚ
  y2 : ℚ
deriving DecidableEq, Repr

/-- The all-zero AABB returned for an empty corner list. -/
def zero_aabb : GlobalAABB := ⟨0, 0, 0, 0⟩

/-- A point (x, y). -/
abbrev GPoint := ℚ × ℚ

/-- multiply_matrices m1 m2 from extract_from_idml.py (extract_box.py has
the identical function). -/
def multiply_matrices (m1 m2 : TransformMatrix) : TransformMatrix :=
  ⟨m1.a * m2.a + m1.c * m2.b, m1.b * m2.a + m1.d * m2.b,
   m1.a * m2.c + m1.c * m2.d, m1.b * m2.c + m1.d * m2.d,
   m1.a * m2.tx + m1.c * m2.ty + m1.tx, m1.b * m2.tx + m1.d * m2.ty + m1.ty⟩

/-- apply_transform_to_point x y matrix. -/
def apply_transform_to_point (x y : ℚ) (m : TransformMatrix) : GPoint :=
  (m.a * x + m.c * y + m.tx, m.b * x + m.d * y + m.ty)

/-- get_global_corners local_bounds item_global_matrix: the four
transformed corners, top-left, top-right, bottom-left, bottom-right. -/
def get_global_corners (lb : LocalBounds) (m : TransformMatrix) : List GPoint :=
  [apply_transform_to_point lb.x1 lb.y1 m, apply_transform_to_point lb.x2 lb.y1 m,
   apply_transform_to_point lb.x1 lb.y2 m, apply_transform_to_point lb.x2 lb.y2 m]

/-- get_axis_aligned_bounding_box corners: per-axis min and max, the
all-zero AABB on an empty list. -/
def get_axis_aligned_bounding_box (corners : List GPoint) : GlobalAABB :=
  match corners with
  | [] => zero_aabb
  | p :: ps =>
    ⟨ps.foldl (fun acc q => min acc q.1) p.1,
     ps.foldl (fun acc q => min acc q.2) p.2,
     ps.foldl (fun acc q => max acc q.1) p.1,
     ps.foldl (fun acc q => max acc q.2) p.2⟩

/-- get_item_center global_aabb: midpoint of the box. -/
def get_item_center (g : GlobalAABB) : GPoint :=
  ((g.x1 + g.x2) / 2, (g.y1 + g.y2) / 2)

/-- is_point_in_rect px py rect_y1 rect_x1 rect_y2 rect_x2: closed-interval
containment on both axes. -/
def is_point_in_rect (px py rect_y1 rect_x1 rect_y2 rect_x2 : ℚ) : Bool :=
  decide ((rect_x1 ≤ px ∧ px ≤ rect_x2) ∧ (rect_y1 ≤ py ∧ py ≤ rect_y2))

namespace Idml

/-- PageGeometricInfo of extract_from_idml.py: the page global matrix
composes the spread base transform with the page local transform. -/
structure PageGeometricInfo where
  id : String
  name : String
  local_bounds : LocalBounds
  global_matrix : TransformMatrix
  global_aabb : GlobalAABB
deriving DecidableEq, Repr

/-- Constructor of Idml.PageGeometricInfo (lines 55-68 of
extract_from_idml.py), at parsed attribute values. -/
def PageGeometricInfo.build (self_id name : String)
    (page_local_matrix : TransformMatrix) (page_local_bounds : LocalBounds)
    (spread_base_transform_matrix : TransformMatrix) : PageGeometricInfo :=
  let global_matrix := multiply_matrices spread_base_transform_matrix page_local_matrix
  ⟨self_id, name, page_local_bounds, global_matrix,
   get_axis_aligned_bounding_box (get_global_corners page_local_bounds global_matrix)⟩

/-- find_page_for_item_center of extract_from_idml.py: first page whose
global AABB contains the point (item_id and item_tag are used only for
logging in the source). -/
def find_page_for_item_center (item_id item_tag : String) (item_center_x item_center_y : ℚ) :
    List PageGeometricInfo → Option String
  | [] => none
  | page_info :: rest =>
    if is_point_in_rect item_center_x item_center_y
        page_info.global_aabb.y1 page_info.global_aabb.x1
        page_info.global_aabb.y2 page_info.global_aabb.x2 then
      some page_info.id
    else
      find_page_for_item_center item_id item_tag item_center_x item_center_y rest

end Idml

namespace Box

/-- PageGeometricInfo of extract_box.py: the page global AABB uses only
the page ItemTransform, without any spread base transform. -/
structure PageGeometricInfo where
  id : String
  name : String
  matrix : TransformMatrix
  local_bounds : LocalBounds
  global_aabb : GlobalAABB
deriving DecidableEq, Repr

/-- Constructor of Box.PageGeometricInfo (lines 95-108 of extract_box.py),
at parsed attribute values. -/
def PageGeometricInfo.build (self_id name : String)
    (page_matrix : TransformMatrix) (page_bounds : LocalBounds) : PageGeometricInfo :=
  ⟨self_id, name, page_matrix, page_bounds,
   get_axis_aligned_bounding_box (get_global_corners page_bounds page_matrix)⟩

end Box

/-- A text content record as built by the spread walk (story_id,
text_frame_id, content, global_bounds, item_transform; the transform is
kept at its parsed value). -/
structure TextItem where
  story_id : String
  text_frame_id : String
  content : String
  global_bounds : GlobalAABB
  item_transform : TransformMatrix
deriving DecidableEq, Repr

/-- An image content record as built by the spread walk (uri,
image_element_id, container tag and id, global_bounds, item_transform). -/
structure ImageItem where
  uri : String
  image_element_id : String
  container_element_tag : String
  container_element_id : String
  global_bounds : GlobalAABB
  item_transform : TransformMatrix
deriving DecidableEq, Repr

/-- Per-page content: the dict with keys name, images, texts. -/
structure PageData where
  name : String
  images : List ImageItem
  texts : List TextItem
deriving DecidableEq, Repr

/-- A page-id-keyed mapping, modelling a Python dict (unique keys,
insertion ordered) as an association list. -/
abbrev PagesMap := List (String × PageData)

/-- Dict lookup on the association list (first matching key). -/
def lookupPage : PagesMap → String → Option PageData
  | [], _ => none
  | (k, v) :: rest, pid => if k = pid then some v else lookupPage rest pid

/-- In-place dict update: replace the value at the first matching key. -/
def updatePage : PagesMap → String → PageData → PagesMap
  | [], _, _ => []
  | (k, v) :: rest, pid, pd =>
    if k = pid then (k, pd) :: rest else (k, v) :: updatePage rest pid pd

/-- The image uniqueness test of the aggregation loop: any existing entry
with the same uri and the same image element id. -/
def image_key_present (l : List ImageItem) (img : ImageItem) : Bool :=
  l.any (fun ex => ex.uri == img.uri && ex.image_element_id == img.image_element_id)

/-- The text uniqueness test of the aggregation loop: any existing entry
with the same text frame id. -/
def text_key_present (l : List TextItem) (t : TextItem) : Bool :=
  l.any (fun ex => ex.text_frame_id == t.text_frame_id)

/-- Append each incoming image unless its key is already present in the
growing list (lines 286-288 of extract_from_idml.py). -/
def append_unique_images (cur new : List ImageItem) : List ImageItem :=
  new.foldl (fun c img => if image_key_present c img then c else c ++ [img]) cur

/-- Append each incoming text unless its frame id is already present in
the growing list (lines 289-292 of extract_from_idml.py; the set
current_tf_ids always holds exactly the frame ids of the growing list). -/
def append_unique_texts (cur new : List TextItem) : List TextItem :=
  new.foldl (fun c t => if text_key_present c t then c else c ++ [t]) cur

/-- Merge one spread page into an already-present document page: the name
is kept, items are appended under the uniqueness keys. -/
def mergePageData (existing incoming : PageData) : PageData :=
  { existing with
    images := append_unique_images existing.images incoming.images,
    texts := append_unique_texts existing.texts incoming.texts }

/-- One step of the aggregation loop over the pages of one spread (lines
283-292 of extract_from_idml.py): a new page id is copied wholesale, an
existing one is merged. -/
def mergeStep (acc : PagesMap) (entry : String × PageData) : PagesMap :=
  match lookupPage acc entry.1 with
  | none => acc ++ [entry]
  | some existing => updatePage acc entry.1 (mergePageData existing entry.2)

/-- Folding one spread result into the running document map. -/
def mergeSpreadContent (doc spread : PagesMap) : PagesMap :=
  spread.foldl mergeStep doc

/-- A document map already holds everything one spread page would add. -/
def pageCovers (doc : PagesMap) (pid : String) (pd : PageData) : Prop :=
  ∃ old, lookupPage doc pid = some old ∧
    (∀ img ∈ pd.images, image_key_present old.images img = true) ∧
    (∀ t ∈ pd.texts, text_key_present old.texts t = true)

/-- Parsed GraphicBounds property: the Left, Top, Right, Bottom attributes
(each attribute defaults to 0 in the source). -/
structure GraphicBoundsProp where
  left : ℚ
  top : ℚ
  right : ℚ
  bottom : ℚ
deriving DecidableEq, Repr

/-- The conversion (gb_t, gb_l, gb_b, gb_r) of a GraphicBounds property
into the (y1, x1, y2, x2) bounds convention. -/
def graphic_bounds_to_local (g : GraphicBoundsProp) : LocalBounds :=
  ⟨g.top, g.left, g.bottom, g.right⟩

/-- get_local_bounds_from_path_geometry at the list of parsed anchor
points: none when no anchors, else (min y, min x, max y, max x). -/
def get_local_bounds_from_path_geometry (anchors : List GPoint) : Option LocalBounds :=
  match anchors with
  | [] => none
  | p :: ps =>
    some ⟨ps.foldl (fun acc q => min acc q.2) p.2, ps.foldl (fun acc q => min acc q.1) p.1,
          ps.foldl (fun acc q => max acc q.2) p.2, ps.foldl (fun acc q => max acc q.1) p.1⟩

namespace Idml

/-- Image local-bounds resolution of extract_from_idml.py lines 141-152:
GraphicBounds first; when that is absent or all-zero, the GeometricBounds
attribute; when that is absent too, the all-zero sentinel. -/
def image_local_bounds (gb : Option GraphicBoundsProp) (geo : Option LocalBounds) :
    LocalBounds :=
  let determined := match gb with
    | some g => graphic_bounds_to_local g
    | none => zero_bounds
  if determined = zero_bounds then
    match geo with
    | some b => b
    | none => zero_bounds
  else determined

/-- Local-bounds dispatch of the walk (lines 141-160 of
extract_from_idml.py) by element tag. -/
def determine_local_bounds (tag : String) (gb : Option GraphicBoundsProp)
    (geo : Option LocalBounds) (anchors : List GPoint) : LocalBounds :=
  if tag = "Image" then image_local_bounds gb geo
  else if tag = "TextFrame" then
    match get_local_bounds_from_path_geometry anchors with
    | some b => b
    | none =>
      match geo with
      | some b => b
      | none => zero_bounds
  else
    match geo with
    | some b => b
    | none => zero_bounds

/-- Lines 162-167 of extract_from_idml.py: non-zero local bounds give the
transformed AABB and its midpoint; the all-zero sentinel keeps the zero
AABB and uses the translation component as centre. -/
def item_geometry (b : LocalBounds) (m : TransformMatrix) : GlobalAABB × GPoint :=
  if b ≠ zero_bounds then
    let aabb := get_axis_aligned_bounding_box (get_global_corners b m)
    (aabb, get_item_center aabb)
  else (zero_aabb, (m.tx, m.ty))

end Idml

namespace Box

/-- Image local-bounds resolution of extract_box.py lines 194-211: only
the GraphicBounds property is consulted; when it is absent the local
bounds variable is never assigned (modelled as none). -/
def image_local_bounds (gb : Option GraphicBoundsProp) : Option LocalBounds :=
  match gb with
  | some g => some (graphic_bounds_to_local g)
  | none => none

/-- Lines 237-241 of extract_box.py: as in extract_from_idml.py but a
Group always gets the computed AABB, even with all-zero local bounds. -/
def item_geometry (tag : String) (b : LocalBounds) (m : TransformMatrix) :
    GlobalAABB × GPoint :=
  if b ≠ zero_bounds ∨ tag ∈ ["Group"] then
    let aabb := get_axis_aligned_bounding_box (get_global_corners b m)
    (aabb, get_item_center aabb)
  else (zero_aabb, (m.tx, m.ty))

end Box

/-- Modelled from the spec words of C5, for comparison with the source
resolvers: prefer the graphic-bounds property converted to the
(y1, x1, y2, x2) convention; when absent or all-zero fall back to the
generic geometric-bounds attribute; when that is also absent, all-zero. -/
def spec_image_local_bounds (gb : Option GraphicBoundsProp) (geo : Option LocalBounds) :
    LocalBounds :=
  match gb with
  | some g =>
    if graphic_bounds_to_local g ≠ zero_bounds then graphic_bounds_to_local g
    else geo.getD zero_bounds
  | none => geo.getD zero_bounds

/-- The story cache: a dict from story id to flattened story text. -/
abbrev StoryCache := List (String × String)

/-- Dict lookup in the story cache. -/
def lookupStory : StoryCache → String → Option String
  | [], _ => none
  | (k, v) :: rest, sid => if k = sid then some v else lookupStory rest sid

/-- The text a TextFrame resolution step ends up using: the cached value
when the story id is cached, otherwise the story-file text, with a missing
story file giving the empty string. -/
def resolved_text (storyFs : String → Option String) (cache : StoryCache)
    (sid : String) : String :=
  match lookupStory cache sid with
  | some t => t
  | none => (storyFs sid).getD ""

namespace Idml

/-- The TextFrame branch of the walk (lines 172-188 of
extract_from_idml.py): fill the story cache on a miss (the empty string
when the story file is missing), then append a text record unless the
page is unassigned, the story reference is absent or empty, the page id
has no entry, the frame id is already recorded, or the text is empty.
The story resolver storyFs returns none when the story file is missing
and the flattened file text otherwise. -/
def handleTextFrame (element_id : String) (story_id : Option String)
    (assigned_page_id : Option String) (storyFs : String → Option String)
    (story_cache : StoryCache) (pcm : PagesMap) (item_global_aabb : GlobalAABB)
    (item_transform : TransformMatrix) : PagesMap × StoryCache :=
  match assigned_page_id, story_id with
  | some pid, some sid =>
    if sid = "" then (pcm, story_cache)
    else
      let cache2 := match lookupStory story_cache sid with
        | some _ => story_cache
        | none => story_cache ++ [(sid, (storyFs sid).getD "")]
      let tc := (lookupStory cache2 sid).getD ""
      match lookupPage pcm pid with
      | none => (pcm, cache2)
      | some pd =>
        if pd.texts.any (fun tf => tf.text_frame_id == element_id) then (pcm, cache2)
        else if tc ≠ "" then
          (updatePage pcm pid
            { pd with texts :=
                pd.texts ++ [⟨sid, element_id, tc, item_global_aabb, item_transform⟩] },
           cache2)
        else (pcm, cache2)
  | _, _ => (pcm, story_cache)

end Idml

/-- A spread XML element as the walk reads it: local tag name, Self id,
parsed ItemTransform, parsed GeometricBounds attribute (none when the
attribute is absent or empty), parsed GraphicBounds property, the anchor
points nested under the path geometry, the ParentStory reference, the
LinkResourceURI of a nested Link element, and the child elements. -/
inductive XElem where
  | node (tag selfId : String) (itemTransform : TransformMatrix)
      (geometricBounds : Option LocalBounds) (graphicBounds : Option GraphicBoundsProp)
      (pathAnchors : List GPoint) (parentStory : Option String)
      (linkURI : Option String) (children : List XElem)

/-- The local tag name of an element. -/
def XElem.tag : XElem → String
  | .node t _ _ _ _ _ _ _ _ => t

/-- The Self id of an element. -/
def XElem.selfId : XElem → String
  | .node _ s _ _ _ _ _ _ _ => s

namespace Idml

/-- The Image branch of the walk (lines 189-200 of extract_from_idml.py):
append an image record when a page was assigned, a Link with a non-empty
LinkResourceURI is present, the page id has an entry, and the (uri,
element id) pair is not yet recorded; the container columns take the tag
and id of the parent element, Unk without one. -/
def handleImage (element_id : String) (link_uri : Option String)
    (container : Option (String × String)) (assigned_page_id : Option String)
    (pcm : PagesMap) (item_global_aabb : GlobalAABB) (item_transform : TransformMatrix) :
    PagesMap :=
  match assigned_page_id with
  | none => pcm
  | some pid =>
    match link_uri with
    | none => pcm
    | some uri =>
      if uri = "" then pcm
      else
        match lookupPage pcm pid with
        | none => pcm
        | some pd =>
          let ctag := (container.map Prod.fst).getD "Unk"
          let cid := (container.map Prod.snd).getD "Unk"
          if pd.images.any (fun i => i.uri == uri && i.image_element_id == element_id) then
            pcm
          else
            updatePage pcm pid
              { pd with images := pd.images ++
                  [⟨uri, element_id, ctag, cid, item_global_aabb, item_transform⟩] }

mutual

/-- process_spread_element_recursively of extract_from_idml.py (lines
128-202): accumulate the global transform, resolve local bounds by tag,
compute AABB and centre, assign a page, run the TextFrame or Image side
effect, and recurse into children of Group, Rectangle, Oval and Polygon
elements with depth+1 (the depth argument only shapes log indentation in
the source). -/
def process_spread_element_recursively (e : XElem) (parent_element : Option XElem)
    (current_accumulated_matrix : TransformMatrix)
    (geometric_pages : List PageGeometricInfo) (pages_content_map : PagesMap)
    (storyFs : String → Option String) (story_cache : StoryCache) (depth : Nat) :
    PagesMap × StoryCache :=
  match e with
  | .node tag selfId itemTransform geoB graB anchors pstory link children =>
    let item_global_matrix := multiply_matrices current_accumulated_matrix itemTransform
    let determined_local_bounds := determine_local_bounds tag graB geoB anchors
    let geom := item_geometry determined_local_bounds item_global_matrix
    let assigned := find_page_for_item_center selfId tag geom.2.1 geom.2.2 geometric_pages
    let stepped :=
      if tag = "TextFrame" then
        handleTextFrame selfId pstory assigned storyFs story_cache pages_content_map
          geom.1 itemTransform
      else if tag = "Image" then
        (handleImage selfId link (parent_element.map (fun p => (p.tag, p.selfId))) assigned
          pages_content_map geom.1 itemTransform, story_cache)
      else (pages_content_map, story_cache)
    if tag = "Group" ∨ tag = "Rectangle" ∨ tag = "Oval" ∨ tag = "Polygon" then
      process_spread_children children e item_global_matrix geometric_pages stepped.1
        storyFs stepped.2 (depth + 1)
    else stepped
termination_by structural e

/-- The for-loop over the children of a recursable element. -/
def process_spread_children (cs : List XElem) (parentE : XElem) (gm : TransformMatrix)
    (geometric_pages : List PageGeometricInfo) (pcm : PagesMap)
    (storyFs : String → Option String) (cache : StoryCache) (depth : Nat) :
    PagesMap × StoryCache :=
  match cs with
  | [] => (pcm, cache)
  | c :: rest =>
    let r := process_spread_element_recursively c (some parentE) gm geometric_pages pcm
      storyFs cache depth
    process_spread_children rest parentE gm geometric_pages r.1 storyFs r.2 depth
termination_by structural cs

end

end Idml

/-- A chain of n nested Group elements around an inner element, all with
identity transforms: a subtree of nesting depth n. -/
def nested_groups : Nat → XElem → XElem
  | 0, inner => inner
  | n + 1, inner =>
    XElem.node "Group" "g" identity_matrix none none [] none none
      [nested_groups n inner]

/-- A concrete Image element with GraphicBounds (0,0)-(10,10) and a link. -/
def demo_image : XElem :=
  XElem.node "Image" "img1" identity_matrix none (some ⟨0, 0, 10, 10⟩) [] none
    (some "file.png") []

/-- A single concrete page covering (0,0)-(100,100). -/
def demo_pages : List Idml.PageGeometricInfo :=
  [Idml.PageGeometricInfo.build "p1" "Page 1" identity_matrix ⟨0, 0, 100, 100⟩
    identity_matrix]

/-- The initial content map for the concrete page. -/
def demo_pcm : PagesMap := [("p1", ⟨"Page 1", [], []⟩)]

/-- The content map holding the one image record the walk collects. -/
def demo_result : PagesMap :=
  [("p1", ⟨"Page 1",
    [⟨"file.png", "img1", "Group", "g", ⟨0, 0, 10, 10⟩, identity_matrix⟩], []⟩)]

/-- An emitted image record: URI, ImageId, page-relative bounds, and the
attached page width and height. -/
structure ImageOut where
  uri : String
  image_id : String
  bounds : GlobalAABB
  page_width : ℚ
  page_height : ℚ
deriving DecidableEq, Repr

/-- An emitted text record: Content, TextId, page-relative bounds, and the
attached page width and height. -/
structure TextOut where
  content : String
  text_id : String
  bounds : GlobalAABB
  page_width : ℚ
  page_height : ℚ
deriving DecidableEq, Repr

/-- One page of the emitted output structure. -/
structure PageOutput where
  page_name : String
  page_id : String
  images : List ImageOut
  texts : List TextOut
deriving DecidableEq, Repr

/-- The sort key of the output loop: compare pages by display name. -/
def name_le (a b : String × PageData) : Bool :=
  decide (a.2.name ≤ b.2.name)

/-- final_sorted_page_ids of extract_from_idml.py (lines 330-331): the
Python sorted builtin is a stable ascending sort, and over the unique keys
of the dict, sorting the key list by looked-up name is sorting the
entries by name. -/
def sorted_page_entries (doc : PagesMap) : PagesMap :=
  doc.mergeSort name_le

/-- Subtract the page origin from an AABB (the page-relative Bounds dict
of the output). -/
def rebase (b : GlobalAABB) (ox oy : ℚ) : GlobalAABB :=
  ⟨b.x1 - ox, b.y1 - oy, b.x2 - ox, b.y2 - oy⟩

/-- The output loop of extract (lines 332-376 of extract_from_idml.py).
The page_width and page_height locals are assigned only when the page has
geometry, so they are threaded as an optional pair, none while still
unassigned; emitting an item while they are unassigned is the
UnboundLocalError of the source, modelled as an overall none. -/
def emit_pages : PagesMap → (String → Option GlobalAABB) → Option (ℚ × ℚ) →
    Option (List PageOutput)
  | [], _, _ => some []
  | (pid, pd) :: rest, geos, wh =>
    match geos pid with
    | some g =>
      let ox := g.x1
      let oy := g.y1
      let w := g.x2 - g.x1
      let h := g.y2 - g.y1
      let page := PageOutput.mk pd.name pid
        (pd.images.map fun img =>
          ⟨img.uri, img.image_element_id, rebase img.global_bounds ox oy, w, h⟩)
        (pd.texts.map fun t =>
          ⟨t.content, t.text_frame_id, rebase t.global_bounds ox oy, w, h⟩)
      (emit_pages rest geos (some (w, h))).map (fun out => page :: out)
    | none =>
      if pd.images.isEmpty ∧ pd.texts.isEmpty then
        (emit_pages rest geos wh).map (fun out => PageOutput.mk pd.name pid [] [] :: out)
      else
        match wh with
        | none => none
        | some (w, h) =>
          let page := PageOutput.mk pd.name pid
            (pd.images.map fun img =>
              ⟨img.uri, img.image_element_id, rebase img.global_bounds 0 0, w, h⟩)
            (pd.texts.map fun t =>
              ⟨t.content, t.text_frame_id, rebase t.global_bounds 0 0, w, h⟩)
          (emit_pages rest geos wh).map (fun out => page :: out)

/-- The JSON output assembly of extract: sort the aggregated pages by name
and emit them with page-relative coordinates; geos is the page-id to
global-AABB view of all_page_geometries. -/
def extract_output (doc : PagesMap) (geos : String → Option GlobalAABB) :
    Option (List PageOutput) :=
  emit_pages (sorted_page_entries doc) geos none

/-- C4: compose(identity, M) = M = compose(M, identity), and applying a
composed transform equals applying the child then the parent transform. -/
theorem transform_identity_compose_apply :
    (∀ M : TransformMatrix,
      multiply_matrices identity_matrix M = M ∧ multiply_matrices M identity_matrix = M) ∧
    (∀ (A B : TransformMatrix) (x y : ℚ),
      apply_transform_to_point x y (multiply_matrices A B) =
        apply_transform_to_point (apply_transform_to_point x y B).1
          (apply_transform_to_point x y B).2 A) := by
  refine ⟨fun M => ⟨?_, ?_⟩, fun A B x y => ?_⟩
  · obtain ⟨a, b, c, d, tx, ty⟩ := M
    simp only [multiply_matrices, identity_matrix, TransformMatrix.mk.injEq]
    refine ⟨by ring, by ring, by ring, by ring, by ring, by ring⟩
  · obtain ⟨a, b, c, d, tx, ty⟩ := M
    simp only [multiply_matrices, identity_matrix, TransformMatrix.mk.injEq]
    refine ⟨by ring, by ring, by ring, by ring, by ring, by ring⟩
  · simp only [multiply_matrices, apply_transform_to_point, Prod.mk.injEq]
    exact ⟨by ring, by ring⟩

/-- C1 (amended): in extract_from_idml.py the page global AABB applies the
sheet base transform on top of the page local transform (it is the AABB of
the locally transformed corners pushed through the spread base transform),
while in extract_box.py only the page local transform is applied. -/
theorem page_global_aabb_spread_base_composed (self_id name : String)
    (L : TransformMatrix) (b : LocalBounds) (S : TransformMatrix) :
    (Idml.PageGeometricInfo.build self_id name L b S).global_aabb =
      get_axis_aligned_bounding_box
        ((get_global_corners b L).map (fun p => apply_transform_to_point p.1 p.2 S)) ∧
    (Box.PageGeometricInfo.build self_id name L b).global_aabb =
      get_axis_aligned_bounding_box (get_global_corners b L) := by
  constructor
  · show get_axis_aligned_bounding_box (get_global_corners b (multiply_matrices S L)) = _
    have h : get_global_corners b (multiply_matrices S L) =
        (get_global_corners b L).map (fun p => apply_transform_to_point p.1 p.2 S) := by
      simp only [get_global_corners, apply_transform_to_point, multiply_matrices,
        List.map_cons, List.map_nil, List.cons.injEq, Prod.mk.injEq, and_true]
      refine ⟨⟨by ring, by ring⟩, ⟨by ring, by ring⟩, ⟨by ring, by ring⟩, by ring, by ring⟩
    rw [h]
  · rfl

/-- C1 counterexample: with a translated sheet base transform, the
extract_box.py page AABB differs from the AABB obtained by composing the
sheet base transform with the page local transform, so the claim fails as
stated for that source variant. -/
theorem page_global_aabb_box_ignores_spread_base :
    (Box.PageGeometricInfo.build "p1" "PageA" identity_matrix ⟨0, 0, 10, 10⟩).global_aabb ≠
      get_axis_aligned_bounding_box
        (get_global_corners ⟨0, 0, 10, 10⟩
          (multiply_matrices ⟨1, 0, 0, 1, 100, 0⟩ identity_matrix)) := by
  with_unfolding_all decide

/-- C2: find_page_for_item_center uses closed-interval containment on both
axes, returns none exactly when no page box contains the point, and
returns the id of the first containing page in list order. -/
theorem find_page_first_inclusive_match (item_id item_tag : String) (cx cy : ℚ)
    (pages : List Idml.PageGeometricInfo) :
    (∀ g : GlobalAABB, is_point_in_rect cx cy g.y1 g.x1 g.y2 g.x2 = true ↔
        ((g.x1 ≤ cx ∧ cx ≤ g.x2) ∧ (g.y1 ≤ cy ∧ cy ≤ g.y2))) ∧
    (Idml.find_page_for_item_center item_id item_tag cx cy pages = none ↔
        ∀ pg ∈ pages, is_point_in_rect cx cy pg.global_aabb.y1 pg.global_aabb.x1
          pg.global_aabb.y2 pg.global_aabb.x2 = false) ∧
    (∀ (pre : List Idml.PageGeometricInfo) (pg : Idml.PageGeometricInfo)
        (post : List Idml.PageGeometricInfo), pages = pre ++ pg :: post →
      is_point_in_rect cx cy pg.global_aabb.y1 pg.global_aabb.x1
        pg.global_aabb.y2 pg.global_aabb.x2 = true →
      (∀ q ∈ pre, is_point_in_rect cx cy q.global_aabb.y1 q.global_aabb.x1
        q.global_aabb.y2 q.global_aabb.x2 = false) →
      Idml.find_page_for_item_center item_id item_tag cx cy pages = some pg.id) := by
  refine ⟨fun g => by simp [is_point_in_rect], ?_, ?_⟩
  · induction pages with
    | nil => simp [Idml.find_page_for_item_center]
    | cons p rest ih =>
      by_cases hp : is_point_in_rect cx cy p.global_aabb.y1 p.global_aabb.x1
          p.global_aabb.y2 p.global_aabb.x2 = true
      · simp [Idml.find_page_for_item_center, hp]
      · simp only [Bool.not_eq_true] at hp
        simp [Idml.find_page_for_item_center, hp, ih]
  · intro pre pg post hsplit hin hpre
    subst hsplit
    induction pre with
    | nil => simp [Idml.find_page_for_item_center, hin]
    | cons q qs ih =>
      have hq : is_point_in_rect cx cy q.global_aabb.y1 q.global_aabb.x1
          q.global_aabb.y2 q.global_aabb.x2 = false := hpre q (by simp)
      simp only [List.cons_append, Idml.find_page_for_item_center, hq]
      simp only [Bool.false_eq_true, if_false]
      exact ih (fun r hr => hpre r (by simp [hr]))

/-- C2 witness: a point exactly on the shared edge of two adjacent pages
is owned by the first page in list order. -/
theorem find_page_first_inclusive_match_witness :
    Idml.find_page_for_item_center "item" "TextFrame" 100 50
      [Idml.PageGeometricInfo.build "p1" "A" identity_matrix ⟨0, 0, 100, 100⟩ identity_matrix,
       Idml.PageGeometricInfo.build "p2" "B" identity_matrix ⟨0, 100, 100, 200⟩ identity_matrix] =
      some "p1" := by
  have h := (find_page_first_inclusive_match "item" "TextFrame" 100 50
      [Idml.PageGeometricInfo.build "p1" "A" identity_matrix ⟨0, 0, 100, 100⟩ identity_matrix,
       Idml.PageGeometricInfo.build "p2" "B" identity_matrix ⟨0, 100, 100, 200⟩ identity_matrix]).2.2
      [] (Idml.PageGeometricInfo.build "p1" "A" identity_matrix ⟨0, 0, 100, 100⟩ identity_matrix)
      [Idml.PageGeometricInfo.build "p2" "B" identity_matrix ⟨0, 100, 100, 200⟩ identity_matrix]
      rfl (by with_unfolding_all decide) (by simp)
  exact h

theorem append_unique_images_cons (l : List ImageItem) (x : ImageItem)
    (xs : List ImageItem) :
    append_unique_images l (x :: xs) =
      append_unique_images (if image_key_present l x then l else l ++ [x]) xs := rfl

theorem append_unique_texts_cons (l : List TextItem) (x : TextItem) (xs : List TextItem) :
    append_unique_texts l (x :: xs) =
      append_unique_texts (if text_key_present l x then l else l ++ [x]) xs := rfl

theorem image_key_present_append (l1 l2 : List ImageItem) (img : ImageItem) :
    image_key_present (l1 ++ l2) img =
      (image_key_present l1 img || image_key_present l2 img) := by
  simp [image_key_present, List.any_append]

theorem text_key_present_append (l1 l2 : List TextItem) (t : TextItem) :
    text_key_present (l1 ++ l2) t = (text_key_present l1 t || text_key_present l2 t) := by
  simp [text_key_present, List.any_append]

theorem image_key_present_of_mem {l : List ImageItem} {img : ImageItem} (h : img ∈ l) :
    image_key_present l img = true := by
  simp only [image_key_present, List.any_eq_true]
  exact ⟨img, h, by simp⟩

theorem text_key_present_of_mem {l : List TextItem} {t : TextItem} (h : t ∈ l) :
    text_key_present l t = true := by
  simp only [text_key_present, List.any_eq_true]
  exact ⟨t, h, by simp⟩

theorem image_key_present_mono {l : List ImageItem} (new : List ImageItem)
    {img : ImageItem} (h : image_key_present l img = true) :
    image_key_present (append_unique_images l new) img = true := by
  induction new generalizing l with
  | nil => exact h
  | cons x xs ih =>
    rw [append_unique_images_cons]
    apply ih
    split
    · exact h
    · simp [image_key_present_append, h]

theorem text_key_present_mono {l : List TextItem} (new : List TextItem) {t : TextItem}
    (h : text_key_present l t = true) :
    text_key_present (append_unique_texts l new) t = true := by
  induction new generalizing l with
  | nil => exact h
  | cons x xs ih =>
    rw [append_unique_texts_cons]
    apply ih
    split
    · exact h
    · simp [text_key_present_append, h]

theorem image_key_present_after {new : List ImageItem} {img : ImageItem} (h : img ∈ new)
    (l : List ImageItem) :
    image_key_present (append_unique_images l new) img = true := by
  induction new generalizing l with
  | nil => cases h
  | cons x xs ih =>
    rw [append_unique_images_cons]
    rcases List.mem_cons.mp h with rfl | hmem
    · apply image_key_present_mono
      split
      · assumption
      · simp [image_key_present_append, image_key_present_of_mem (List.mem_singleton_self img)]
    · exact ih hmem _

theorem text_key_present_after {new : List TextItem} {t : TextItem} (h : t ∈ new)
    (l : List TextItem) :
    text_key_present (append_unique_texts l new) t = true := by
  induction new generalizing l with
  | nil => cases h
  | cons x xs ih =>
    rw [append_unique_texts_cons]
    rcases List.mem_cons.mp h with rfl | hmem
    · apply text_key_present_mono
      split
      · assumption
      · simp [text_key_present_append, text_key_present_of_mem (List.mem_singleton_self t)]
    · exact ih hmem _

theorem append_unique_images_no_new {l : List ImageItem} {new : List ImageItem}
    (h : ∀ img ∈ new, image_key_present l img = true) :
    append_unique_images l new = l := by
  induction new with
  | nil => rfl
  | cons x xs ih =>
    rw [append_unique_images_cons, if_pos (h x (by simp))]
    exact ih (fun i hi => h i (by simp [hi]))

theorem append_unique_texts_no_new {l : List TextItem} {new : List TextItem}
    (h : ∀ t ∈ new, text_key_present l t = true) :
    append_unique_texts l new = l := by
  induction new with
  | nil => rfl
  | cons x xs ih =>
    rw [append_unique_texts_cons, if_pos (h x (by simp))]
    exact ih (fun i hi => h i (by simp [hi]))

theorem lookupPage_append_some {m : PagesMap} {pid : String} {pd : PageData}
    (h : lookupPage m pid = some pd) (l2 : PagesMap) :
    lookupPage (m ++ l2) pid = some pd := by
  induction m with
  | nil => simp [lookupPage] at h
  | cons e rest ih =>
    obtain ⟨k, v⟩ := e
    by_cases hk : k = pid
    · simp_all [lookupPage]
    · simp only [lookupPage, if_neg hk] at h
      simpa [lookupPage, if_neg hk] using ih h

theorem lookupPage_append_none {m : PagesMap} {pid : String}
    (h : lookupPage m pid = none) (l2 : PagesMap) :
    lookupPage (m ++ l2) pid = lookupPage l2 pid := by
  induction m with
  | nil => simp
  | cons e rest ih =>
    obtain ⟨k, v⟩ := e
    by_cases hk : k = pid
    · simp [lookupPage, hk] at h
    · simp only [lookupPage, if_neg hk] at h
      simpa [lookupPage, if_neg hk] using ih h

theorem updatePage_self {m : PagesMap} {pid : String} {pd : PageData}
    (h : lookupPage m pid = some pd) :
    updatePage m pid pd = m := by
  induction m with
  | nil => rfl
  | cons e rest ih =>
    obtain ⟨k, v⟩ := e
    by_cases hk : k = pid
    · simp only [lookupPage, if_pos hk] at h
      simp [updatePage, hk, Option.some.inj h]
    · simp only [lookupPage, if_neg hk] at h
      simp [updatePage, hk, ih h]

theorem lookupPage_updatePage_eq {m : PagesMap} {pid : String} {old : PageData}
    (h : lookupPage m pid = some old) (pd : PageData) :
    lookupPage (updatePage m pid pd) pid = some pd := by
  induction m with
  | nil => simp [lookupPage] at h
  | cons e rest ih =>
    obtain ⟨k, v⟩ := e
    by_cases hk : k = pid
    · simp [updatePage, lookupPage, hk]
    · simp only [lookupPage, if_neg hk] at h
      simp [updatePage, lookupPage, hk, ih h]

theorem lookupPage_updatePage_ne {m : PagesMap} {pid pid2 : String} (hne : pid ≠ pid2)
    (pd : PageData) :
    lookupPage (updatePage m pid pd) pid2 = lookupPage m pid2 := by
  induction m with
  | nil => rfl
  | cons e rest ih =>
    obtain ⟨k, v⟩ := e
    by_cases hk : k = pid
    · subst hk
      simp [updatePage, lookupPage, if_neg hne]
    · simp [updatePage, lookupPage, hk, ih]

theorem pageCovers_mergeStep {doc : PagesMap} {pid : String} {pd : PageData}
    (h : pageCovers doc pid pd) (entry : String × PageData) :
    pageCovers (mergeStep doc entry) pid pd := by
  obtain ⟨old, hl, himg, htxt⟩ := h
  unfold mergeStep
  cases hlk : lookupPage doc entry.1 with
  | none => exact ⟨old, lookupPage_append_some hl _, himg, htxt⟩
  | some existing =>
    by_cases he : entry.1 = pid
    · subst he
      have hoe : existing = old := Option.some.inj (hlk.symm.trans hl)
      subst hoe
      refine ⟨mergePageData existing entry.2, lookupPage_updatePage_eq hlk _, ?_, ?_⟩
      · exact fun img hm => image_key_present_mono _ (himg img hm)
      · exact fun t hm => text_key_present_mono _ (htxt t hm)
    · exact ⟨old, by rw [lookupPage_updatePage_ne he]; exact hl, himg, htxt⟩

theorem pageCovers_mergeSpreadContent {doc : PagesMap} {pid : String} {pd : PageData}
    (h : pageCovers doc pid pd) (sp : PagesMap) :
    pageCovers (mergeSpreadContent doc sp) pid pd := by
  induction sp generalizing doc with
  | nil => exact h
  | cons e es ih => exact ih (pageCovers_mergeStep h e)

theorem mergeSpreadContent_saturates (sp : PagesMap) (doc : PagesMap) :
    ∀ entry ∈ sp, pageCovers (mergeSpreadContent doc sp) entry.1 entry.2 := by
  induction sp generalizing doc with
  | nil => intro entry h; cases h
  | cons e es ih =>
    intro entry hmem
    rcases List.mem_cons.mp hmem with rfl | hmem2
    · show pageCovers (mergeSpreadContent (mergeStep doc entry) es) entry.1 entry.2
      apply pageCovers_mergeSpreadContent
      unfold mergeStep
      cases hlk : lookupPage doc entry.1 with
      | none =>
        refine ⟨entry.2, ?_, fun img hm => image_key_present_of_mem hm,
          fun t hm => text_key_present_of_mem hm⟩
        rw [lookupPage_append_none hlk]
        simp [lookupPage]
      | some existing =>
        refine ⟨mergePageData existing entry.2, lookupPage_updatePage_eq hlk _, ?_, ?_⟩
        · exact fun img hm => image_key_present_after hm _
        · exact fun t hm => text_key_present_after hm _
    · exact ih (mergeStep doc e) entry hmem2

theorem mergeSpreadContent_of_covered {sp doc : PagesMap}
    (h : ∀ entry ∈ sp, pageCovers doc entry.1 entry.2) :
    mergeSpreadContent doc sp = doc := by
  induction sp with
  | nil => rfl
  | cons e es ih =>
    obtain ⟨old, hl, himg, htxt⟩ := h e (by simp)
    have hmerge : mergePageData old e.2 = old := by
      unfold mergePageData
      rw [append_unique_images_no_new himg, append_unique_texts_no_new htxt]
    have hstep : mergeStep doc e = doc := by
      unfold mergeStep
      rw [hl]
      show updatePage doc e.1 (mergePageData old e.2) = doc
      rw [hmerge]
      exact updatePage_self hl
    show mergeSpreadContent (mergeStep doc e) es = doc
    rw [hstep]
    exact ih (fun entry hm => h entry (by simp [hm]))

theorem lookupPage_mergeSpreadContent_name (sp : PagesMap) :
    ∀ (doc : PagesMap) (pid : String) (old : PageData), lookupPage doc pid = some old →
      ∃ pd2, lookupPage (mergeSpreadContent doc sp) pid = some pd2 ∧ pd2.name = old.name := by
  induction sp with
  | nil => exact fun doc pid old h => ⟨old, h, rfl⟩
  | cons e es ih =>
    intro doc pid old h
    have hstep : ∃ old2, lookupPage (mergeStep doc e) pid = some old2 ∧
        old2.name = old.name := by
      unfold mergeStep
      cases hlk : lookupPage doc e.1 with
      | none => exact ⟨old, lookupPage_append_some h _, rfl⟩
      | some existing =>
        by_cases he : e.1 = pid
        · subst he
          have hoe : existing = old := Option.some.inj (hlk.symm.trans h)
          exact ⟨mergePageData existing e.2, lookupPage_updatePage_eq hlk _,
            by simp [mergePageData, hoe]⟩
        · exact ⟨old, by rw [lookupPage_updatePage_ne he]; exact h, rfl⟩
    obtain ⟨old2, hl2, hn2⟩ := hstep
    obtain ⟨pd2, hl3, hn3⟩ := ih (mergeStep doc e) pid old2 hl2
    exact ⟨pd2, hl3, hn3.trans hn2⟩

/-- C3: folding the same spread content in twice changes nothing, a page
already in the document keeps its name, and a page with a new id is
copied wholesale. -/
theorem merge_dedup_idempotent_name_first (doc spread : PagesMap) :
    mergeSpreadContent (mergeSpreadContent doc spread) spread =
      mergeSpreadContent doc spread ∧
    (∀ pid old, lookupPage doc pid = some old →
      ∃ pd2, lookupPage (mergeSpreadContent doc spread) pid = some pd2 ∧
        pd2.name = old.name) ∧
    (∀ pid pd, lookupPage doc pid = none →
      mergeSpreadContent doc [(pid, pd)] = doc ++ [(pid, pd)]) := by
  refine ⟨?_, fun pid old h => lookupPage_mergeSpreadContent_name spread doc pid old h,
    fun pid pd h => ?_⟩
  · exact mergeSpreadContent_of_covered (mergeSpreadContent_saturates spread doc)
  · show mergeSpreadContent (mergeStep doc (pid, pd)) [] = _
    unfold mergeStep
    rw [h]
    rfl

/-- C3 witness: on a concrete document map and spread result, the name of
an existing page survives the merge and a fresh page id is appended
wholesale. -/
theorem merge_dedup_idempotent_name_first_witness :
    (∃ pd2, lookupPage
        (mergeSpreadContent [("p1", ⟨"A", [], []⟩)] [("p1", ⟨"B", [], []⟩)]) "p1" =
        some pd2 ∧ pd2.name = "A") ∧
    mergeSpreadContent [("p1", PageData.mk "A" [] [])] [("p9", ⟨"Z", [], []⟩)] =
      [("p1", ⟨"A", [], []⟩), ("p9", ⟨"Z", [], []⟩)] := by
  constructor
  · exact (merge_dedup_idempotent_name_first [("p1", ⟨"A", [], []⟩)]
      [("p1", ⟨"B", [], []⟩)]).2.1 "p1" ⟨"A", [], []⟩ rfl
  · exact (merge_dedup_idempotent_name_first [("p1", ⟨"A", [], []⟩)]
      [("p9", ⟨"Z", [], []⟩)]).2.2 "p9" ⟨"Z", [], []⟩ rfl

/-- C5 (amended): the extract_from_idml.py resolver realises exactly the
claimed precedence (and takes no transform input), while the
extract_box.py resolver consults only the graphic-bounds property. -/
theorem image_bounds_precedence :
    (∀ (gb : Option GraphicBoundsProp) (geo : Option LocalBounds),
      Idml.image_local_bounds gb geo = spec_image_local_bounds gb geo) ∧
    (∀ gb : Option GraphicBoundsProp,
      Box.image_local_bounds gb = Option.map graphic_bounds_to_local gb) := by
  constructor
  · intro gb geo
    cases gb with
    | none => cases geo <;> simp [Idml.image_local_bounds, spec_image_local_bounds]
    | some g =>
      by_cases hz : graphic_bounds_to_local g = zero_bounds
      · simp only [Idml.image_local_bounds, spec_image_local_bounds, hz, if_pos rfl,
          ne_eq, not_true_eq_false, if_false]
        cases geo <;> rfl
      · simp [Idml.image_local_bounds, spec_image_local_bounds, hz]
  · intro gb
    cases gb <;> rfl

/-- C5 counterexample: with an all-zero GraphicBounds property and a
present GeometricBounds attribute, extract_box.py keeps the all-zero
bounds while the claimed precedence demands the fallback value. -/
theorem image_bounds_box_no_fallback_cex :
    Box.image_local_bounds (some ⟨0, 0, 0, 0⟩) = some zero_bounds ∧
    spec_image_local_bounds (some ⟨0, 0, 0, 0⟩) (some ⟨1, 2, 3, 4⟩) =
      LocalBounds.mk 1 2 3 4 ∧
    zero_bounds ≠ LocalBounds.mk 1 2 3 4 := by
  refine ⟨rfl, ?_, by with_unfolding_all decide⟩
  simp [spec_image_local_bounds, graphic_bounds_to_local, zero_bounds]

/-- C8: for all-zero local bounds the walk reports the zero AABB sentinel
and uses the translation component (tx, ty) as centre (in extract_box.py
unless the element is a Group); for non-zero bounds both variants report
the transformed AABB and use its midpoint as centre. -/
theorem zero_bounds_sentinel_center_fallback (tag : String) (b : LocalBounds)
    (m : TransformMatrix) :
    (b = zero_bounds → Idml.item_geometry b m = (zero_aabb, (m.tx, m.ty))) ∧
    (b = zero_bounds → tag ∉ (["Group"] : List String) →
      Box.item_geometry tag b m = (zero_aabb, (m.tx, m.ty))) ∧
    (b ≠ zero_bounds →
      Idml.item_geometry b m =
        (get_axis_aligned_bounding_box (get_global_corners b m),
         get_item_center (get_axis_aligned_bounding_box (get_global_corners b m))) ∧
      Box.item_geometry tag b m =
        (get_axis_aligned_bounding_box (get_global_corners b m),
         get_item_center (get_axis_aligned_bounding_box (get_global_corners b m)))) := by
  refine ⟨fun hz => ?_, fun hz hg => ?_, fun hnz => ⟨?_, ?_⟩⟩
  · simp [Idml.item_geometry, hz]
  · have hg2 : ¬ tag = "Group" := by simpa using hg
    simp [Box.item_geometry, hz, hg2]
  · simp [Idml.item_geometry, hnz]
  · simp [Box.item_geometry, hnz]

/-- C8 witness: concrete sentinel and non-sentinel elements. -/
theorem zero_bounds_sentinel_center_fallback_witness :
    Idml.item_geometry zero_bounds ⟨1, 0, 0, 1, 7, 9⟩ = (zero_aabb, (7, 9)) ∧
    Box.item_geometry "TextFrame" zero_bounds ⟨1, 0, 0, 1, 7, 9⟩ = (zero_aabb, (7, 9)) ∧
    Idml.item_geometry ⟨0, 0, 10, 10⟩ identity_matrix =
      (get_axis_aligned_bounding_box (get_global_corners ⟨0, 0, 10, 10⟩ identity_matrix),
       get_item_center
         (get_axis_aligned_bounding_box (get_global_corners ⟨0, 0, 10, 10⟩ identity_matrix))) :=
  ⟨(zero_bounds_sentinel_center_fallback "X" zero_bounds ⟨1, 0, 0, 1, 7, 9⟩).1 rfl,
   (zero_bounds_sentinel_center_fallback "TextFrame" zero_bounds ⟨1, 0, 0, 1, 7, 9⟩).2.1 rfl
     (by decide),
   ((zero_bounds_sentinel_center_fallback "X" ⟨0, 0, 10, 10⟩ identity_matrix).2.2
     (by with_unfolding_all decide)).1⟩

theorem lookupStory_append_none {c : StoryCache} {sid : String}
    (h : lookupStory c sid = none) (v : String) :
    lookupStory (c ++ [(sid, v)]) sid = some v := by
  induction c with
  | nil => simp [lookupStory]
  | cons e rest ih =>
    obtain ⟨k, w⟩ := e
    by_cases hk : k = sid
    · simp [lookupStory, hk] at h
    · simp only [lookupStory, if_neg hk] at h
      simpa [lookupStory, if_neg hk] using ih h

/-- C6 (amended): a text record is appended to a page exactly when the
page was assigned, equals the page under view, the story reference is
present and non-empty, the page id has an entry in the content map, the
resolved text is non-empty, and no record with the same text frame id is
already present (the dedup key is the frame id alone); the cache gains the
resolved text, the empty string for a missing story file, on a miss. -/
theorem text_item_append_characterization (element_id : String)
    (story_id : Option String) (assigned : Option String)
    (storyFs : String → Option String) (cache : StoryCache) (pcm : PagesMap)
    (aabb : GlobalAABB) (tm : TransformMatrix) (pid : String) :
    lookupPage
        (Idml.handleTextFrame element_id story_id assigned storyFs cache pcm aabb tm).1
        pid =
      (lookupPage pcm pid).map (fun pd =>
        match assigned, story_id with
        | some pid2, some sid =>
          if pid2 = pid ∧ sid ≠ "" ∧ resolved_text storyFs cache sid ≠ "" ∧
              pd.texts.any (fun tf => tf.text_frame_id == element_id) = false then
            { pd with texts := pd.texts ++
                [⟨sid, element_id, resolved_text storyFs cache sid, aabb, tm⟩] }
          else pd
        | _, _ => pd) ∧
    (Idml.handleTextFrame element_id story_id assigned storyFs cache pcm aabb tm).2 =
      (match assigned, story_id with
       | some _, some sid =>
         if sid ≠ "" ∧ lookupStory cache sid = none then
           cache ++ [(sid, (storyFs sid).getD "")]
         else cache
       | _, _ => cache) := by
  rcases assigned with _ | pid2 <;> rcases story_id with _ | sid
  · simp [Idml.handleTextFrame]
  · simp [Idml.handleTextFrame]
  · simp [Idml.handleTextFrame]
  · by_cases hsid : sid = ""
    · simp [Idml.handleTextFrame, hsid]
    · have hcache2 :
          (match lookupStory cache sid with
            | some _ => cache
            | none => cache ++ [(sid, (storyFs sid).getD "")]) =
          (if sid ≠ "" ∧ lookupStory cache sid = none then
            cache ++ [(sid, (storyFs sid).getD "")] else cache) := by
        cases hc : lookupStory cache sid <;> simp [hsid, hc]
      have htc :
          (lookupStory
            (match lookupStory cache sid with
              | some _ => cache
              | none => cache ++ [(sid, (storyFs sid).getD "")]) sid).getD "" =
          resolved_text storyFs cache sid := by
        cases hc : lookupStory cache sid with
        | some t => simp [resolved_text, hc]
        | none => simp [resolved_text, hc, lookupStory_append_none hc]
      simp only [Idml.handleTextFrame, if_neg hsid]
      cases hpd : lookupPage pcm pid2 with
      | none =>
        by_cases hpp : pid2 = pid
        · subst hpp
          simp [hpd, hcache2]
        · constructor
          · simp only []
            cases hp : lookupPage pcm pid with
            | none => simp
            | some pd => simp [hpp]
          · exact hcache2
      | some pd =>
        by_cases hdup : pd.texts.any (fun tf => tf.text_frame_id == element_id) = true
        · simp only [hdup, if_true]
          constructor
          · by_cases hpp : pid2 = pid
            · subst hpp
              simp only [hpd, Option.map_some']
              simp [hdup]
            · cases hp : lookupPage pcm pid with
              | none => simp
              | some pd3 => simp [hpp]
          · exact hcache2
        · have hdup2 : pd.texts.any (fun tf => tf.text_frame_id == element_id) = false :=
            Bool.not_eq_true _ ▸ Bool.of_not_eq_true hdup
          simp only [hdup2, Bool.false_eq_true, if_false]
          by_cases htc2 : (lookupStory
              (match lookupStory cache sid with
                | some _ => cache
                | none => cache ++ [(sid, (storyFs sid).getD "")]) sid).getD "" ≠ ""
          · rw [if_pos htc2]
            constructor
            · by_cases hpp : pid2 = pid
              · subst hpp
                have hres : resolved_text storyFs cache sid ≠ "" := htc ▸ htc2
                simp only [lookupPage_updatePage_eq hpd, hpd, Option.map_some']
                rw [htc]
                simp [hsid, hres, hdup2]
              · rw [lookupPage_updatePage_ne hpp]
                cases hp : lookupPage pcm pid with
                | none => simp
                | some pd3 => simp [hpp]
            · exact hcache2
          · rw [if_neg htc2]
            have hres : ¬ resolved_text storyFs cache sid ≠ "" := htc ▸ htc2
            constructor
            · by_cases hpp : pid2 = pid
              · subst hpp
                simp only [hpd, Option.map_some']
                simp [hres]
              · cases hp : lookupPage pcm pid with
                | none => simp
                | some pd3 => simp [hpp]
            · exact hcache2

/-- C6 counterexample: the page already records the same text frame id
under a different story id, so the (story id, element id) pair is not yet
recorded, every remaining claimed condition holds, and still nothing is
appended: the dedup key is the frame id alone, not the pair. -/
theorem text_dedup_by_frame_id_cex :
    (Idml.handleTextFrame "e" (some "s2") (some "p") (fun _ => some "world") []
        [("p", ⟨"A", [], [⟨"s1", "e", "hello", zero_aabb, identity_matrix⟩]⟩)]
        zero_aabb identity_matrix).1 =
      [("p", ⟨"A", [], [⟨"s1", "e", "hello", zero_aabb, identity_matrix⟩]⟩)] ∧
    ([TextItem.mk "s1" "e" "hello" zero_aabb identity_matrix].any
      (fun tf => tf.story_id == "s2" && tf.text_frame_id == "e")) = false ∧
    resolved_text (fun _ => some "world") [] "s2" = "world" := by
  refine ⟨?_, by decide, rfl⟩
  with_unfolding_all decide

theorem multiply_identity_identity :
    multiply_matrices identity_matrix identity_matrix = identity_matrix := by
  with_unfolding_all decide

theorem walk_depth_aux : ∀ n : Nat,
    (∀ e : XElem, sizeOf e ≤ n →
      ∀ parent acc pages pcm storyFs cache d d2,
      Idml.process_spread_element_recursively e parent acc pages pcm storyFs cache d =
        Idml.process_spread_element_recursively e parent acc pages pcm storyFs cache d2) ∧
    (∀ cs : List XElem, sizeOf cs ≤ n →
      ∀ parentE gm pages pcm storyFs cache d d2,
      Idml.process_spread_children cs parentE gm pages pcm storyFs cache d =
        Idml.process_spread_children cs parentE gm pages pcm storyFs cache d2) := by
  intro n
  induction n with
  | zero =>
    constructor
    · intro e he
      exfalso
      cases e with
      | node t s tf gb grb pa ps l ch =>
        simp only [XElem.node.sizeOf_spec] at he
        omega
    · intro cs hcs
      exfalso
      cases cs with
      | nil => simp at hcs
      | cons c rest =>
        simp only [List.cons.sizeOf_spec] at hcs
        omega
  | succ n ih =>
    constructor
    · intro e he parent acc pages pcm storyFs cache d d2
      cases e with
      | node t s tf gb grb pa ps l ch =>
        have hch : sizeOf ch ≤ n := by
          simp only [XElem.node.sizeOf_spec] at he
          omega
        by_cases hrec : t = "Group" ∨ t = "Rectangle" ∨ t = "Oval" ∨ t = "Polygon"
        · simp only [Idml.process_spread_element_recursively, if_pos hrec]
          exact ih.2 ch hch _ _ _ _ _ _ _ _
        · simp only [Idml.process_spread_element_recursively, if_neg hrec]
    · intro cs hcs parentE gm pages pcm storyFs cache d d2
      cases cs with
      | nil => rfl
      | cons c rest =>
        have hc : sizeOf c ≤ n := by
          simp only [List.cons.sizeOf_spec] at hcs
          omega
        have hrest : sizeOf rest ≤ n := by
          simp only [List.cons.sizeOf_spec] at hcs
          omega
        simp only [Idml.process_spread_children]
        rw [ih.1 c hc (some parentE) gm pages pcm storyFs cache d d2]
        exact ih.2 rest hrest _ _ _ _ _ _ _ _

theorem walk_nested_demo : ∀ n : Nat, ∀ d : Nat,
    (Idml.process_spread_element_recursively (nested_groups n demo_image)
      (some (XElem.node "Group" "g" identity_matrix none none [] none none
        [nested_groups n demo_image]))
      identity_matrix demo_pages demo_pcm (fun _ => none) [] d).1 = demo_result := by
  intro n
  induction n with
  | zero =>
    intro d
    rw [(walk_depth_aux (sizeOf (nested_groups 0 demo_image))).1 _ le_rfl _ _ _ _ _ _ d 0]
    with_unfolding_all decide
  | succ n ih =>
    intro d
    simp only [nested_groups]
    simp [Idml.process_spread_element_recursively, Idml.process_spread_children,
      multiply_identity_identity]
    exact ih (d + 1)

/-- C9 (amended): the walk enforces no recursion-depth ceiling: its result
is independent of the depth argument (which only shapes log indentation),
and a chain of Group elements of any nesting depth is still walked to the
bottom, collecting the innermost content. -/
theorem walk_ignores_depth :
    (∀ (e : XElem) (parent : Option XElem) (acc : TransformMatrix)
        (pages : List Idml.PageGeometricInfo) (pcm : PagesMap)
        (storyFs : String → Option String) (cache : StoryCache) (d d2 : Nat),
      Idml.process_spread_element_recursively e parent acc pages pcm storyFs cache d =
        Idml.process_spread_element_recursively e parent acc pages pcm storyFs cache d2) ∧
    (∀ n d : Nat,
      (Idml.process_spread_element_recursively (nested_groups (n + 1) demo_image) none
        identity_matrix demo_pages demo_pcm (fun _ => none) [] d).1 = demo_result) := by
  constructor
  · intro e parent acc pages pcm storyFs cache d d2
    exact (walk_depth_aux (sizeOf e)).1 e le_rfl parent acc pages pcm storyFs cache d d2
  · intro n d
    simp only [nested_groups]
    simp [Idml.process_spread_element_recursively, Idml.process_spread_children,
      multiply_identity_identity]
    exact walk_nested_demo n (d + 1)

/-- C9 counterexample: processing a subtree of nesting depth 30, well past
the documents-are-typically-shallower-than-20 expectation, still reaches
and collects the innermost image: no subtree is ever aborted. -/
theorem walk_no_depth_ceiling_cex :
    (Idml.process_spread_element_recursively (nested_groups 30 demo_image) none
      identity_matrix demo_pages demo_pcm (fun _ => none) [] 0).1 = demo_result := by
  simp only [show nested_groups 30 demo_image = XElem.node "Group" "g" identity_matrix
    none none [] none none [nested_groups 29 demo_image] from rfl]
  simp [Idml.process_spread_element_recursively, Idml.process_spread_children,
    multiply_identity_identity]
  exact walk_nested_demo 29 1

set_option maxRecDepth 8000

/-- C7: at the failing input, a document whose single page carries an item
but has no recorded geometry, the output loop references page_width before
any assignment (an UnboundLocalError at line 361 of extract_from_idml.py,
modelled as none) instead of passing the items through; with geometry
present, the loop subtracts the page origin from every coordinate and
attaches width x2-x1 and height y2-y1 to each item as the claim states. -/
theorem normalize_missing_geometry_crash :
    extract_output
      [("p1", ⟨"A", [⟨"u", "i", "Rectangle", "r", ⟨3, 4, 5, 6⟩, identity_matrix⟩], []⟩)]
      (fun _ => none) = none ∧
    extract_output
      [("p1", ⟨"A", [⟨"u", "i", "Rectangle", "r", ⟨110, 60, 160, 110⟩, identity_matrix⟩],
        [⟨"s", "t", "Hello", ⟨150, 100, 250, 150⟩, identity_matrix⟩]⟩)]
      (fun pid => if pid = "p1" then some ⟨100, 50, 900, 650⟩ else none) =
      some [⟨"A", "p1",
        [⟨"u", "i", ⟨10, 10, 60, 60⟩, 800, 600⟩],
        [⟨"Hello", "t", ⟨50, 50, 150, 100⟩, 800, 600⟩]⟩] := by
  constructor
  · with_unfolding_all decide
  · with_unfolding_all decide

theorem emit_pages_map_name : ∀ (entries : PagesMap) (geos : String → Option GlobalAABB)
    (wh : Option (ℚ × ℚ)) (out : List PageOutput), emit_pages entries geos wh = some out →
    out.map PageOutput.page_name = entries.map (fun e => e.2.name) := by
  intro entries
  induction entries with
  | nil =>
    intro geos wh out h
    simp only [emit_pages, Option.some.injEq] at h
    subst h
    rfl
  | cons e rest ih =>
    intro geos wh out h
    obtain ⟨pid, pd⟩ := e
    simp only [emit_pages] at h
    cases hg : geos pid with
    | some g =>
      rw [hg] at h
      obtain ⟨out2, h2, rfl⟩ := Option.map_eq_some'.mp h
      simp [ih geos _ out2 h2]
    | none =>
      rw [hg] at h
      by_cases hemp : pd.images.isEmpty ∧ pd.texts.isEmpty
      · rw [if_pos hemp] at h
        obtain ⟨out2, h2, rfl⟩ := Option.map_eq_some'.mp h
        simp [ih geos _ out2 h2]
      · rw [if_neg hemp] at h
        cases wh with
        | none => simp at h
        | some p =>
          obtain ⟨w, hgt⟩ := p
          obtain ⟨out2, h2, rfl⟩ := Option.map_eq_some'.mp h
          simp [ih geos _ out2 h2]

theorem name_le_trans : ∀ a b c : String × PageData,
    name_le a b → name_le b c → name_le a c := by
  intro a b c hab hbc
  simp only [name_le, decide_eq_true_eq] at hab hbc ⊢
  exact le_trans hab hbc

theorem name_le_total : ∀ a b : String × PageData, name_le a b || name_le b a := by
  intro a b
  simp only [name_le, Bool.or_eq_true, decide_eq_true_eq]
  exact le_total _ _

/-- C10: the emitted pages carry exactly the names of the aggregated pages
sorted into ascending lexicographic name order: the emitted name sequence
is the name-sorted entry sequence, which is pairwise nondecreasing, a
permutation of the aggregated map, and stable (two entries with equal
names keep their dict-insertion order). -/
theorem output_pages_sorted_by_name (doc : PagesMap)
    (geos : String → Option GlobalAABB) :
    (∀ out, extract_output doc geos = some out →
      out.map PageOutput.page_name = (sorted_page_entries doc).map (fun e => e.2.name)) ∧
    List.Pairwise (fun a b : String × PageData => a.2.name ≤ b.2.name)
      (sorted_page_entries doc) ∧
    (sorted_page_entries doc).Perm doc ∧
    (∀ a b : String × PageData, a.2.name ≤ b.2.name → List.Sublist [a, b] doc →
      List.Sublist [a, b] (sorted_page_entries doc)) := by
  refine ⟨?_, ?_, ?_, ?_⟩
  · intro out h
    exact emit_pages_map_name (sorted_page_entries doc) geos none out h
  · have hp := List.sorted_mergeSort name_le_trans name_le_total doc
    exact hp.imp (fun h => by simpa [name_le, decide_eq_true_eq] using h)
  · exact List.mergeSort_perm doc name_le
  · intro a b hab hsub
    exact List.pair_sublist_mergeSort name_le_trans name_le_total
      (by simpa [name_le, decide_eq_true_eq] using hab) hsub

/-- C10 witness: a concrete two-page document whose insertion order is not
name order comes out name-sorted, and a name-ordered pair of entries stays
in order. -/
theorem output_pages_sorted_by_name_witness :
    ([PageOutput.mk "A" "p1" [] [], PageOutput.mk "B" "p2" [] []].map
      PageOutput.page_name =
      (sorted_page_entries [("p2", ⟨"B", [], []⟩), ("p1", ⟨"A", [], []⟩)]).map
        (fun e => e.2.name)) ∧
    List.Sublist [(("p1", ⟨"A", [], []⟩) : String × PageData), ("p2", ⟨"B", [], []⟩)]
      (sorted_page_entries [("p1", ⟨"A", [], []⟩), ("p2", ⟨"B", [], []⟩)]) := by
  constructor
  · exact (output_pages_sorted_by_name [("p2", ⟨"B", [], []⟩), ("p1", ⟨"A", [], []⟩)]
      (fun _ => some zero_aabb)).1
      [PageOutput.mk "A" "p1" [] [], PageOutput.mk "B" "p2" [] []]
      (by with_unfolding_all decide)
  · exact (output_pages_sorted_by_name [("p1", ⟨"A", [], []⟩), ("p2", ⟨"B", [], []⟩)]
      (fun _ => some zero_aabb)).2.2.2
      ("p1", ⟨"A", [], []⟩) ("p2", ⟨"B", [], []⟩)
      (by with_unfolding_all decide) (List.Sublist.refl _)
